import Mathlib

/-!
Shallow embedding of the tdigest library (src/src/lib.rs).

Modelling conventions:
* `f64` values that only ever carry finite numeric data in the embedded code
  paths (centroid means and weights) are modelled as exact rationals `ℚ`.
* `f64` fields where the code manifestly uses the IEEE NaN sentinel
  (the digest statistics `sum`, `count`, `max`, `min`) are modelled by the
  type `F` below, a rational extended with an explicit `nan` element, with
  IEEE-style propagation in arithmetic and IEEE-style comparisons
  (every comparison with `nan` is false).
* Rust in-place mutation is modelled by returning the new value of the
  mutated receiver alongside the method result.
-/

/-- Model of an `f64` restricted to the values the embedded code manipulates:
either the NaN sentinel or an exact finite rational. -/
inductive F
  | nan : F
  | val : ℚ → F
  deriving DecidableEq

/-- IEEE-style addition on `F`: NaN propagates, finite values add exactly. -/
def F.add : F → F → F
  | F.nan, _ => F.nan
  | _, F.nan => F.nan
  | F.val a, F.val b => F.val (a + b)

/-- IEEE-style division on `F`: NaN propagates; a zero divisor yields the
undefined result (modelled as `nan`; no code path below divides a finite
value by zero). -/
def F.div : F → F → F
  | F.nan, _ => F.nan
  | _, F.nan => F.nan
  | F.val a, F.val b => if b = 0 then F.nan else F.val (a / b)

/-- Model of the strict f64 comparison `x > 0.0`: false on NaN. -/
def F.isPos : F → Bool
  | F.nan => false
  | F.val a => decide (0 < a)

/-- IEEE-style fmin: ignores a NaN argument, takes the smaller finite value. -/
def F.fmin : F → F → F
  | F.nan, b => b
  | a, F.nan => a
  | F.val a, F.val b => F.val (min a b)

/-- IEEE-style fmax: ignores a NaN argument, takes the larger finite value. -/
def F.fmax : F → F → F
  | F.nan, b => b
  | a, F.nan => a
  | F.val a, F.val b => F.val (max a b)

/-- The `Centroid` struct of src/src/lib.rs (lines 6-11): a weighted point
with fields `mean` and `weight` (stored as `OrderedFloat<f64>` in Rust,
modelled as exact rationals). -/
structure Centroid where
  mean : ℚ
  weight : ℚ
  deriving DecidableEq

/-- `Centroid::new` (src/src/lib.rs lines 26-31): stores the two given
fields; the source performs no validation of any kind. -/
def Centroid.new (mean weight : ℚ) : Centroid :=
  ⟨mean, weight⟩

/-- `Ord for Centroid` (src/src/lib.rs lines 19-23): comparison delegates
to the `mean` fields only. -/
def Centroid.cmp (a b : Centroid) : Ordering :=
  compare a.mean b.mean

/-- The derived `PartialEq`/`Eq` for `Centroid` (line 6): structural
equality on both fields. -/
def Centroid.beq (a b : Centroid) : Bool :=
  a.mean == b.mean && a.weight == b.weight

/-- `Centroid::update` (src/src/lib.rs lines 43-51). The Rust method
mutates `self` and returns `(self.mean(), self.weight())`; the model
returns the mutated centroid together with that pair. The source sets
`self.weight = weight + _weight` and then
`self.mean = (_mean * _weight + value) / self.weight()`. -/
def Centroid.update (c : Centroid) (value weight : ℚ) : Centroid × ℚ × ℚ :=
  let w := c.weight
  let m := c.mean
  let newWeight := weight + w
  let newMean := (m * w + value) / newWeight
  (⟨newMean, newWeight⟩, newMean, newWeight)

/-- The `TDigest` struct of src/src/lib.rs (lines 63-70). -/
structure TDigest where
  centroids : List Centroid
  max_size : ℕ
  sum : F
  count : F
  max : F
  min : F
  deriving DecidableEq

/-- `TDigest::new_with_size` (src/src/lib.rs lines 73-82): empty centroid
list, zero sum and count, NaN min and max, the given size bound. -/
def TDigest.new_with_size (max_size : ℕ) : TDigest :=
  ⟨[], max_size, F.val 0, F.val 0, F.nan, F.nan⟩

/-- `TDigest::mean` (src/src/lib.rs lines 111-121): `sum / count` when
`count > 0.0`, otherwise the NaN sentinel. -/
def TDigest.mean (t : TDigest) : F :=
  if F.isPos t.count then F.div t.sum t.count else F.nan

/-- `TDigest::is_empty` (src/src/lib.rs lines 143-146): emptiness of the
centroid list, independent of the statistics fields. -/
def TDigest.is_empty (t : TDigest) : Bool :=
  t.centroids.isEmpty

/-- Sum of the weights of a centroid list. -/
def weightSum (l : List Centroid) : ℚ :=
  (l.map Centroid.weight).sum

/-- Modelled from the spec: the inverse scale function of the Merge Engine
(spec section 4.3; the function itself is absent from src/). It maps a
cluster-boundary index `k` in `[0, d]` to the quantile where that boundary
sits. It is piecewise quadratic, so boundaries are dense near quantiles 0
and 1 (the scale function `k(q)` changes slowly at the tails) and sparse
near quantile 0.5 (where `k(q)` changes quickly), exactly the shape the
spec prescribes. -/
def k_to_q (k d : ℚ) : ℚ :=
  let r := k / d
  if 1 / 2 ≤ r then 1 - 2 * (1 - r) * (1 - r) else 2 * r * r

/-- Modelled from the spec: merging a candidate centroid into the open
cluster "via the weighted-mean update" (spec section 4.3 step 3). -/
def Centroid.absorb (a b : Centroid) : Centroid :=
  ⟨(a.mean * a.weight + b.mean * b.weight) / (a.weight + b.weight),
    a.weight + b.weight⟩

/-- Modelled from the spec: the left-to-right clustering scan of the Merge
Engine (spec section 4.3 steps 3-4; absent from src/). One open cluster
`curr` is maintained; `ws` is the cumulative weight up to and including
`curr`. The scale criterion `k(q1) - k(q0) <= 1` (scaled by `max_size`) is
realised through the inverse scale function: cluster boundaries sit at unit
increments of `k`, so a candidate is absorbed while the cumulative weight
including it stays at or below the quantile `k_to_q kl d` of the next
unused boundary (times the total weight `W`), and otherwise the open
cluster is emitted and the boundary index advances. -/
def mergeLoop (d : ℕ) (W : ℚ) : Centroid → ℚ → ℕ → ℚ → List Centroid → List Centroid
  | curr, _, _, _, [] => [curr]
  | curr, ws, kl, ql, c :: rest =>
    let ws2 := ws + c.weight
    if ws2 ≤ ql then
      mergeLoop d W (curr.absorb c) ws2 kl ql rest
    else
      curr :: mergeLoop d W c ws2 (kl + 1) (k_to_q (kl : ℚ) (d : ℚ) * W) rest

/-- Centroids sorted ascending by mean (spec section 4.3 step 1). -/
def sortCentroids (l : List Centroid) : List Centroid :=
  l.insertionSort (fun a b => a.mean ≤ b.mean)

/-- Modelled from the spec: `TDigest::merge_digests`, which src/src/lib.rs
line 107 calls but the repository does not define. Following spec section
4.3: all input centroids are concatenated and sorted by mean (step 1); `W`
is the total centroid weight (step 2); the clustering scan compresses the
sorted list (steps 3-4); the output statistics are recomputed (step 5):
`count` is the sum of the input counts, `sum` the sum of the input sums,
and `min`/`max` the extrema over the `min`/`max` fields of the inputs whose
`count` is not zero. The governing size bound is the first input digest's
`max_size` (the construction in spec section 4.2 lists the freshly sized
empty digest first, and its size is what makes the result near-bounded);
an empty input list falls back to the default bound 100. -/
def TDigest.merge_digests (digests : List TDigest) : TDigest :=
  let d := (digests.head?.map TDigest.max_size).getD 100
  let all := (digests.map TDigest.centroids).flatten
  let sorted := sortCentroids all
  let W := weightSum all
  let newCount := (digests.map TDigest.count).foldl F.add (F.val 0)
  let newSum := (digests.map TDigest.sum).foldl F.add (F.val 0)
  let contributing := digests.filter (fun t => decide (t.count ≠ F.val 0))
  let newMin := (contributing.map TDigest.min).foldl F.fmin F.nan
  let newMax := (contributing.map TDigest.max).foldl F.fmax F.nan
  match sorted with
  | [] => ⟨[], d, newSum, newCount, newMax, newMin⟩
  | c :: rest =>
    ⟨mergeLoop d W c c.weight 2 (k_to_q 1 (d : ℚ) * W) rest,
      d, newSum, newCount, newMax, newMin⟩

/-- `TDigest::new` (src/src/lib.rs lines 84-109): if the list fits the
bound, all fields are stored exactly as given; otherwise the result is
`merge_digests` of an empty digest sized 100 and a digest holding the
oversized list sized to its own length. The source builds the second
digest through a recursive call `TDigest::new(centroids, sz, ...)` with
`sz = centroids.len()`, which immediately takes the `len <= max_size`
branch, so it is inlined here. -/
def TDigest.new (centroids : List Centroid) (max_size : ℕ)
    (sum count max min : F) : TDigest :=
  if centroids.length ≤ max_size then
    ⟨centroids, max_size, sum, count, max, min⟩
  else
    TDigest.merge_digests
      [TDigest.new_with_size 100,
        ⟨centroids, centroids.length, sum, count, max, min⟩]

/-- Twenty unit-weight centroids at means 1..20, used to exercise the
oversized construction path on a digest with a tiny size bound. -/
def oversizedSample : List Centroid :=
  [Centroid.new 1 1, Centroid.new 2 1, Centroid.new 3 1, Centroid.new 4 1,
    Centroid.new 5 1, Centroid.new 6 1, Centroid.new 7 1, Centroid.new 8 1,
    Centroid.new 9 1, Centroid.new 10 1, Centroid.new 11 1, Centroid.new 12 1,
    Centroid.new 13 1, Centroid.new 14 1, Centroid.new 15 1, Centroid.new 16 1,
    Centroid.new 17 1, Centroid.new 18 1, Centroid.new 19 1, Centroid.new 20 1]

theorem weightSum_nil : weightSum [] = 0 := rfl

theorem weightSum_cons (c : Centroid) (l : List Centroid) :
    weightSum (c :: l) = c.weight + weightSum l := by
  simp [weightSum]

theorem weightSum_nonneg (l : List Centroid) (h : ∀ c ∈ l, 0 ≤ c.weight) :
    0 ≤ weightSum l := by
  induction l with
  | nil => simp [weightSum]
  | cons c rest ih =>
    rw [weightSum_cons]
    have h1 := h c (List.mem_cons_self c rest)
    have h2 := ih (fun x hx => h x (List.mem_cons_of_mem _ hx))
    linarith

theorem weightSum_sortCentroids (l : List Centroid) :
    weightSum (sortCentroids l) = weightSum l := by
  unfold weightSum sortCentroids
  exact ((List.perm_insertionSort _ l).map Centroid.weight).sum_eq

theorem mem_sortCentroids (x : Centroid) (l : List Centroid) :
    x ∈ sortCentroids l ↔ x ∈ l :=
  (List.perm_insertionSort _ l).mem_iff

theorem absorb_weight (a b : Centroid) :
    (a.absorb b).weight = a.weight + b.weight := rfl

theorem k_to_q_self (d : ℕ) (hd : 0 < d) : k_to_q (d : ℚ) (d : ℚ) = 1 := by
  have hne : (d : ℚ) ≠ 0 := Nat.cast_ne_zero.mpr (Nat.pos_iff_ne_zero.mp hd)
  simp [k_to_q, div_self hne]
  norm_num

theorem mergeLoop_nil (d : ℕ) (W : ℚ) (curr : Centroid) (ws : ℚ) (kl : ℕ) (ql : ℚ) :
    mergeLoop d W curr ws kl ql [] = [curr] := rfl

theorem mergeLoop_cons (d : ℕ) (W : ℚ) (curr : Centroid) (ws : ℚ) (kl : ℕ)
    (ql : ℚ) (c : Centroid) (rest : List Centroid) :
    mergeLoop d W curr ws kl ql (c :: rest) =
      if ws + c.weight ≤ ql then
        mergeLoop d W (curr.absorb c) (ws + c.weight) kl ql rest
      else
        curr :: mergeLoop d W c (ws + c.weight) (kl + 1)
          (k_to_q (kl : ℚ) (d : ℚ) * W) rest := rfl

theorem mergeLoop_weightSum (d : ℕ) (W : ℚ) (rest : List Centroid) :
    ∀ (curr : Centroid) (ws : ℚ) (kl : ℕ) (ql : ℚ),
      weightSum (mergeLoop d W curr ws kl ql rest) = curr.weight + weightSum rest := by
  induction rest with
  | nil =>
    intro curr ws kl ql
    rw [mergeLoop_nil, weightSum_cons, weightSum_nil]
  | cons c rest ih =>
    intro curr ws kl ql
    rw [mergeLoop_cons]
    by_cases h : ws + c.weight ≤ ql
    · rw [if_pos h, ih, absorb_weight, weightSum_cons]
      ring
    · rw [if_neg h, weightSum_cons, ih, weightSum_cons]

theorem mergeLoop_length_le (d : ℕ) (hd : 0 < d) (W : ℚ) (rest : List Centroid) :
    ∀ (curr : Centroid) (ws : ℚ) (kl : ℕ), 2 ≤ kl → kl ≤ d + 1 →
      ws + weightSum rest ≤ W → (∀ c ∈ rest, 0 ≤ c.weight) →
      (mergeLoop d W curr ws kl (k_to_q ((kl - 1 : ℕ) : ℚ) (d : ℚ) * W) rest).length
        ≤ d + 2 - kl := by
  induction rest with
  | nil =>
    intro curr ws kl h2 hd1 _ _
    rw [mergeLoop_nil]
    simp only [List.length_cons, List.length_nil]
    omega
  | cons c rest ih =>
    intro curr ws kl h2 hd1 hw hpos
    rw [weightSum_cons] at hw
    have hpos_rest : ∀ x ∈ rest, 0 ≤ x.weight :=
      fun x hx => hpos x (List.mem_cons_of_mem _ hx)
    rw [mergeLoop_cons]
    by_cases h : ws + c.weight ≤ k_to_q ((kl - 1 : ℕ) : ℚ) (d : ℚ) * W
    · rw [if_pos h]
      exact ih _ _ kl h2 hd1 (by linarith) hpos_rest
    · rw [if_neg h]
      have hkl : kl ≤ d := by
        by_contra hcon
        have hkl1 : kl = d + 1 := by omega
        subst hkl1
        have hq : ((d + 1 - 1 : ℕ) : ℚ) = (d : ℚ) := by norm_num
        have hrsum : 0 ≤ weightSum rest := weightSum_nonneg rest hpos_rest
        rw [hq, k_to_q_self d hd, one_mul] at h
        exact h (by linarith)
      have hcast : (((kl + 1) - 1 : ℕ) : ℚ) = (kl : ℚ) := by norm_num
      have hrec := ih c (ws + c.weight) (kl + 1) (by omega) (by omega)
        (by linarith) hpos_rest
      rw [hcast] at hrec
      simp only [List.length_cons]
      omega

theorem merge_digests_centroids_nil (digests : List TDigest)
    (hs : sortCentroids ((digests.map TDigest.centroids).flatten) = []) :
    (TDigest.merge_digests digests).centroids = [] := by
  simp only [TDigest.merge_digests]
  rw [hs]

theorem merge_digests_centroids_cons (digests : List TDigest) (c : Centroid)
    (rest : List Centroid)
    (hs : sortCentroids ((digests.map TDigest.centroids).flatten) = c :: rest) :
    (TDigest.merge_digests digests).centroids =
      mergeLoop ((digests.head?.map TDigest.max_size).getD 100)
        (weightSum ((digests.map TDigest.centroids).flatten))
        c c.weight 2
        (k_to_q 1 (((digests.head?.map TDigest.max_size).getD 100 : ℕ) : ℚ)
          * weightSum ((digests.map TDigest.centroids).flatten)) rest := by
  simp only [TDigest.merge_digests]
  rw [hs]

theorem merge_digests_count (digests : List TDigest) :
    (TDigest.merge_digests digests).count
      = (digests.map TDigest.count).foldl F.add (F.val 0) := by
  simp only [TDigest.merge_digests]
  cases sortCentroids ((digests.map TDigest.centroids).flatten) <;> rfl

theorem merge_digests_weightSum (digests : List TDigest) :
    weightSum (TDigest.merge_digests digests).centroids
      = weightSum ((digests.map TDigest.centroids).flatten) := by
  cases hs : sortCentroids ((digests.map TDigest.centroids).flatten) with
  | nil =>
    have h2 := weightSum_sortCentroids ((digests.map TDigest.centroids).flatten)
    rw [hs, weightSum_nil] at h2
    rw [merge_digests_centroids_nil digests hs, weightSum_nil]
    exact h2
  | cons c rest =>
    have h2 := weightSum_sortCentroids ((digests.map TDigest.centroids).flatten)
    rw [hs, weightSum_cons] at h2
    rw [merge_digests_centroids_cons digests c rest hs, mergeLoop_weightSum]
    exact h2

theorem merge_digests_length_le (digests : List TDigest)
    (hd : 0 < (digests.head?.map TDigest.max_size).getD 100)
    (hpos : ∀ c ∈ (digests.map TDigest.centroids).flatten, 0 ≤ c.weight) :
    (TDigest.merge_digests digests).centroids.length
      ≤ (digests.head?.map TDigest.max_size).getD 100 := by
  cases hs : sortCentroids ((digests.map TDigest.centroids).flatten) with
  | nil =>
    rw [merge_digests_centroids_nil digests hs]
    simp
  | cons c rest =>
    rw [merge_digests_centroids_cons digests c rest hs]
    have hsum := weightSum_sortCentroids ((digests.map TDigest.centroids).flatten)
    rw [hs, weightSum_cons] at hsum
    have hmem : ∀ x ∈ rest, 0 ≤ x.weight := by
      intro x hx
      apply hpos
      rw [← mem_sortCentroids x, hs]
      exact List.mem_cons_of_mem _ hx
    have hcast : (((2 : ℕ) - 1 : ℕ) : ℚ) = (1 : ℚ) := by norm_num
    have h := mergeLoop_length_le ((digests.head?.map TDigest.max_size).getD 100)
      hd (weightSum ((digests.map TDigest.centroids).flatten)) rest c c.weight 2
      (le_refl 2) (by omega) (le_of_eq hsum) hmem
    rw [hcast] at h
    omega

theorem weightSum_flatten (ls : List (List Centroid)) :
    weightSum ls.flatten = (ls.map weightSum).sum := by
  induction ls with
  | nil => rfl
  | cons l ls ih =>
    rw [List.flatten_cons, List.map_cons, List.sum_cons, ← ih]
    unfold weightSum
    rw [List.map_append, List.sum_append]

/-- C1: for every centroid, `update(value, weight)` sets the weight to
`old_weight + weight` and the mean to
`(old_mean * old_weight + value) / new_weight` (the incoming value enters
the numerator unscaled by its own weight), leaves the mutated centroid
holding exactly those values, and returns the pair
`(new_mean, new_weight)`; in particular updating the centroid `(5, 1)`
with `(7, 2)` yields mean 4 and weight 3. -/
theorem centroid_update_contract :
    ∀ (c : Centroid) (value weight : ℚ),
      ((c.update value weight).1.weight = c.weight + weight
        ∧ (c.update value weight).1.mean
            = (c.mean * c.weight + value) / (c.weight + weight)
        ∧ (c.update value weight).2
            = ((c.update value weight).1.mean, (c.update value weight).1.weight))
      ∧ ((Centroid.new 5 1).update 7 2).1.mean = 4
      ∧ ((Centroid.new 5 1).update 7 2).1.weight = 3 := by
  intro c value weight
  refine ⟨⟨?_, ?_, rfl⟩, ?_, ?_⟩
  · show weight + c.weight = c.weight + weight
    ring
  · show (c.mean * c.weight + value) / (weight + c.weight)
        = (c.mean * c.weight + value) / (c.weight + weight)
    rw [add_comm weight c.weight]
  · with_unfolding_all rfl
  · with_unfolding_all rfl

/-- C7: the ordering comparison on centroids is determined solely by the
mean fields (so equal means with different weights compare as equal),
while the derived equality check requires both mean and weight to match;
the two are distinct operations. -/
theorem centroid_order_vs_equality :
    ∀ a b : Centroid,
      ((Centroid.cmp a b = Ordering.eq) ↔ a.mean = b.mean)
      ∧ ((Centroid.beq a b = true) ↔ (a.mean = b.mean ∧ a.weight = b.weight))
      ∧ Centroid.cmp (Centroid.new 5 1) (Centroid.new 5 2) = Ordering.eq
      ∧ Centroid.beq (Centroid.new 5 1) (Centroid.new 5 2) = false := by
  intro a b
  refine ⟨?_, ?_, ?_, ?_⟩
  · unfold Centroid.cmp
    exact compare_eq_iff_eq
  · simp [Centroid.beq]
  · decide
  · decide

/-- C8: `new_with_size(max_size)` returns a digest with an empty centroid
list, zero sum and count, NaN min and max, and the given size bound. -/
theorem new_with_size_fields :
    ∀ ms : ℕ,
      (TDigest.new_with_size ms).centroids = []
      ∧ (TDigest.new_with_size ms).sum = F.val 0
      ∧ (TDigest.new_with_size ms).count = F.val 0
      ∧ (TDigest.new_with_size ms).min = F.nan
      ∧ (TDigest.new_with_size ms).max = F.nan
      ∧ (TDigest.new_with_size ms).max_size = ms :=
  fun _ => ⟨rfl, rfl, rfl, rfl, rfl, rfl⟩

/-- C9: when the supplied centroid list fits the size bound, the direct
constructor stores all six fields exactly as given, with no re-validation
and no modification of the centroid list. -/
theorem direct_constructor_trusts_caller :
    ∀ (cs : List Centroid) (ms : ℕ) (s c mx mn : F), cs.length ≤ ms →
      TDigest.new cs ms s c mx mn = ⟨cs, ms, s, c, mx, mn⟩ := by
  intro cs ms s c mx mn h
  unfold TDigest.new
  rw [if_pos h]

/-- Witness for C9: an unsorted centroid list with inconsistent statistics
is stored verbatim. -/
theorem direct_constructor_trusts_caller_witness :
    TDigest.new [Centroid.new 2 1, Centroid.new 1 1] 5
        (F.val 9) (F.val 7) (F.val 0) (F.val 8)
      = ⟨[Centroid.new 2 1, Centroid.new 1 1], 5,
          F.val 9, F.val 7, F.val 0, F.val 8⟩ :=
  direct_constructor_trusts_caller [Centroid.new 2 1, Centroid.new 1 1] 5
    (F.val 9) (F.val 7) (F.val 0) (F.val 8) (by decide)

/-- C10: `is_empty` is emptiness of the centroid list alone, independent
of the `count` field; in particular a digest directly constructed from an
empty list and a nonzero count still reports `is_empty = true`. -/
theorem is_empty_ignores_count :
    (∀ t : TDigest, (t.is_empty = true) ↔ t.centroids.length = 0)
      ∧ (TDigest.new [] 10 (F.val 0) (F.val 5) F.nan F.nan).is_empty = true := by
  constructor
  · intro t
    simp [TDigest.is_empty, List.isEmpty_iff, List.length_eq_zero]
  · rfl

/-- C4 counterexample: `Centroid::new(5.0, -1.0)` does not produce any
failure; it silently constructs a centroid whose weight is the
non-positive value -1, contradicting the claim that callers supplying
`weight <= 0` receive an explicit `InvalidInput` failure. -/
theorem centroid_new_nonpositive_counterexample :
    Centroid.new 5 (-1) = ⟨5, -1⟩ ∧ (Centroid.new 5 (-1)).weight ≤ 0 := by
  refine ⟨rfl, ?_⟩
  show (-1 : ℚ) ≤ 0
  norm_num

/-- C4 amended: `Centroid::new` performs no validation at all; for every
weight, including `weight <= 0`, it returns a constructed centroid holding
exactly the given mean and weight, and no `InvalidInput` failure path
exists in the code. -/
theorem centroid_new_no_validation :
    ∀ (m w : ℚ), w ≤ 0 →
      (Centroid.new m w).mean = m ∧ (Centroid.new m w).weight = w :=
  fun _ _ _ => ⟨rfl, rfl⟩

/-- Witness for C4 amended at mean 5, weight -1. -/
theorem centroid_new_no_validation_witness :
    (Centroid.new 5 (-1)).mean = 5 ∧ (Centroid.new 5 (-1)).weight = -1 :=
  centroid_new_no_validation 5 (-1) (by norm_num)

/-- C5 counterexample: on the empty digest, `mean`, `min` and `max` all
return the numeric NaN sentinel of the float type, not an absent/optional
result: each accessor has the float return type and yields an inhabitant
of it. -/
theorem empty_digest_query_counterexample :
    (TDigest.new_with_size 100).mean = F.nan
      ∧ (TDigest.new_with_size 100).min = F.nan
      ∧ (TDigest.new_with_size 100).max = F.nan :=
  ⟨rfl, rfl, rfl⟩

/-- C5 amended: for every digest with `count == 0`, `mean()` returns the
NaN numeric sentinel (a value of the float type, not an absent/optional
result), and `min`/`max` are plain stored fields, which on a digest
created empty likewise hold the NaN sentinel. -/
theorem empty_digest_query_amended :
    (∀ t : TDigest, t.count = F.val 0 → t.mean = F.nan)
      ∧ (∀ ms : ℕ, (TDigest.new_with_size ms).min = F.nan
          ∧ (TDigest.new_with_size ms).max = F.nan) := by
  constructor
  · intro t h
    unfold TDigest.mean
    rw [h, if_neg]
    simp [F.isPos]
  · intro ms
    exact ⟨rfl, rfl⟩

/-- Witness for C5 amended on a concrete empty digest. -/
theorem empty_digest_query_amended_witness :
    (TDigest.new_with_size 3).mean = F.nan
      ∧ (TDigest.new_with_size 3).min = F.nan :=
  ⟨empty_digest_query_amended.1 (TDigest.new_with_size 3) rfl,
    (empty_digest_query_amended.2 3).1⟩

/-- C6 counterexample: a digest directly constructed with `count = -1` and
`sum = 5` has `mean() = NaN`, while the claimed unconditional formula
`sum / count` gives -5; so `mean()` is not `sum / count` for every digest
with nonzero count. -/
theorem mean_negative_count_counterexample :
    (TDigest.new [] 10 (F.val 5) (F.val (-1)) F.nan F.nan).mean = F.nan
      ∧ F.div (F.val 5) (F.val (-1)) = F.val (-5)
      ∧ F.nan ≠ F.val (-5) := by
  refine ⟨by with_unfolding_all rfl, ?_, ?_⟩
  · show (if (-1 : ℚ) = 0 then F.nan else F.val (5 / (-1))) = F.val (-5)
    norm_num
  · intro h
    exact F.noConfusion h

/-- C6 amended: `mean()` returns `sum / count` only when `count > 0`; in
every other case — `count == 0`, negative `count`, or NaN `count` — it
returns the NaN sentinel. -/
theorem mean_accessor_amended :
    ∀ t : TDigest,
      (∀ q : ℚ, t.count = F.val q →
        ((0 < q → t.mean = F.div t.sum t.count)
          ∧ (q ≤ 0 → t.mean = F.nan)))
      ∧ (t.count = F.nan → t.mean = F.nan) := by
  intro t
  constructor
  · intro q h
    constructor
    · intro hq
      unfold TDigest.mean
      rw [h, if_pos]
      simp [F.isPos]
      exact hq
    · intro hq
      unfold TDigest.mean
      rw [h, if_neg]
      simp [F.isPos]
      exact hq
  · intro h
    unfold TDigest.mean
    rw [h, if_neg]
    simp [F.isPos]

/-- Witness for C6 amended: positive, negative and NaN counts. -/
theorem mean_accessor_amended_witness :
    (TDigest.new [] 10 (F.val 6) (F.val 2) F.nan F.nan).mean
        = F.div (F.val 6) (F.val 2)
      ∧ (TDigest.new [] 10 (F.val 5) (F.val (-1)) F.nan F.nan).mean = F.nan
      ∧ (TDigest.new [] 10 (F.val 5) F.nan F.nan F.nan).mean = F.nan :=
  ⟨((mean_accessor_amended
        (TDigest.new [] 10 (F.val 6) (F.val 2) F.nan F.nan)).1 2 rfl).1
      (by norm_num),
    ((mean_accessor_amended
        (TDigest.new [] 10 (F.val 5) (F.val (-1)) F.nan F.nan)).1 (-1) rfl).2
      (by norm_num),
    (mean_accessor_amended
        (TDigest.new [] 10 (F.val 5) F.nan F.nan F.nan)).2 rfl⟩

/-- C3: for every finite collection of digests, the merged digest's
`count` is exactly the (float) sum of the input digests' counts, and the
total centroid weight of the merged digest equals the sum of the inputs'
total centroid weights: the clustering scan neither creates nor destroys
weight. -/
theorem merge_weight_conservation :
    ∀ digests : List TDigest,
      (TDigest.merge_digests digests).count
          = (digests.map TDigest.count).foldl F.add (F.val 0)
        ∧ weightSum (TDigest.merge_digests digests).centroids
          = (digests.map (fun t => weightSum t.centroids)).sum := by
  intro digests
  refine ⟨merge_digests_count digests, ?_⟩
  rw [merge_digests_weightSum, weightSum_flatten, List.map_map]
  rfl

/-- C2 counterexample: constructing a digest with `max_size = 0` from 20
unit-weight centroids at means 1..20 does not fail, but the compression is
governed by the default size 100 of the empty digest fed to the Merge
Engine, not by the caller's `max_size`; the result keeps all 20 centroids,
so its centroid count exceeds `max_size + c` for every constant
`c <= 19` — the excess over `max_size` grows with the input (up to the
default bound 100) instead of being a fixed small constant. -/
theorem oversized_construction_counterexample :
    (TDigest.new oversizedSample 0
        (F.val 0) (F.val 20) F.nan F.nan).centroids.length = 20
      ∧ ¬ ((TDigest.new oversizedSample 0
          (F.val 0) (F.val 20) F.nan F.nan).centroids.length ≤ 0 + 19) := by
  have h : (TDigest.new oversizedSample 0
      (F.val 0) (F.val 20) F.nan F.nan).centroids.length = 20 := by
    with_unfolding_all rfl
  refine ⟨h, ?_⟩
  rw [h]
  norm_num

/-- C2 amended: for every centroid list (of valid centroids, whose weights
are non-negative) whose length exceeds `max_size`, the direct constructor
does not fail; it returns exactly the Merge Engine's result over the
two-element list of an empty digest of size 100 and a digest holding the
oversized list with its size bound set to the list's own length, and the
returned digest has at most 100 centroids (the default compression size
100 governs the bound, not the caller's `max_size`). -/
theorem oversized_construction_amended :
    ∀ (cs : List Centroid) (ms : ℕ) (s c mx mn : F), ms < cs.length →
      (∀ x ∈ cs, 0 ≤ x.weight) →
      TDigest.new cs ms s c mx mn
          = TDigest.merge_digests
              [TDigest.new_with_size 100, ⟨cs, cs.length, s, c, mx, mn⟩]
        ∧ (TDigest.new cs ms s c mx mn).centroids.length ≤ 100 := by
  intro cs ms s c mx mn hlen hw
  have heq : TDigest.new cs ms s c mx mn
      = TDigest.merge_digests
          [TDigest.new_with_size 100, ⟨cs, cs.length, s, c, mx, mn⟩] := by
    unfold TDigest.new
    rw [if_neg (by omega)]
  have hflat : (([TDigest.new_with_size 100,
      (⟨cs, cs.length, s, c, mx, mn⟩ : TDigest)].map TDigest.centroids).flatten)
      = cs := by
    simp [TDigest.new_with_size]
  have hpos : ∀ x ∈ (([TDigest.new_with_size 100,
      (⟨cs, cs.length, s, c, mx, mn⟩ : TDigest)].map TDigest.centroids).flatten),
      0 ≤ x.weight := by
    rw [hflat]
    exact hw
  have hdval : (([TDigest.new_with_size 100,
      (⟨cs, cs.length, s, c, mx, mn⟩ : TDigest)].head?.map
        TDigest.max_size).getD 100) = 100 := rfl
  have hd0 : 0 < (([TDigest.new_with_size 100,
      (⟨cs, cs.length, s, c, mx, mn⟩ : TDigest)].head?.map
        TDigest.max_size).getD 100) := by
    rw [hdval]
    norm_num
  have hbound := merge_digests_length_le
    [TDigest.new_with_size 100, ⟨cs, cs.length, s, c, mx, mn⟩] hd0 hpos
  rw [hdval] at hbound
  refine ⟨heq, ?_⟩
  rw [heq]
  exact hbound

/-- Witness for C2 amended: two centroids against size bound 1. -/
theorem oversized_construction_amended_witness :
    TDigest.new [Centroid.new 1 1, Centroid.new 2 1] 1
        (F.val 3) (F.val 2) F.nan F.nan
      = TDigest.merge_digests
          [TDigest.new_with_size 100,
            ⟨[Centroid.new 1 1, Centroid.new 2 1], 2,
              F.val 3, F.val 2, F.nan, F.nan⟩]
      ∧ (TDigest.new [Centroid.new 1 1, Centroid.new 2 1] 1
          (F.val 3) (F.val 2) F.nan F.nan).centroids.length ≤ 100 :=
  oversized_construction_amended [Centroid.new 1 1, Centroid.new 2 1] 1
    (F.val 3) (F.val 2) F.nan F.nan (by norm_num)
    (by
      intro x hx
      simp [Centroid.new] at hx
      rcases hx with h | h <;> rw [h] <;> norm_num)
